import Mathlib

/-!
Shallow embedding of the FPC (Fast Probabilistic Consensus) voter of this
repository (package fpc, file fpc.go) together with the parts of the
surrounding vote/opinion packages it relies on.  Pure functions of the Go
source are translated into Lean functions; the mutable FPC struct becomes an
explicit state record threaded through the operations; Go float64 values are
modelled as rationals (the properties below are about the branch structure and
the exact formulas, not about IEEE rounding); fallible operations return an
explicit error component.  Go maps that are iterated are modelled as
association lists with unique keys, which fixes one (irrelevant, since all
mutation below is per-key) iteration order.
-/

set_option maxHeartbeats 1000000
set_option linter.unusedVariables false

namespace FPCModel

/-- Modelled from the spec: the Opinion enumeration of the opinion package
(which is not part of the provided sources): exactly the three values Like,
Dislike, Unknown. -/
inductive Opinion
  | Like
  | Dislike
  | Unknown
deriving DecidableEq

/-- Modelled from the spec: the ObjectType tag of the vote package, the
recognized set being Conflict and Timestamp. -/
inductive ObjectType
  | Conflict
  | Timestamp
deriving DecidableEq

/-- Modelled from the spec: opinion.ConvertOpinionToFloat64 (opinion package,
not in the provided sources): Like encodes to 1, Dislike to 0, and Unknown to
a negative scalar. -/
def ConvertOpinionToFloat64 : Opinion → ℚ
  | Opinion.Like => 1
  | Opinion.Dislike => 0
  | Opinion.Unknown => -1

/-- Modelled from the spec: vote.Context (vote package, not in the provided
sources): id, object type, the non-empty ordered opinion sequence, the round
counter, the aggregated liked proportion, and the (ownWeight, totalWeights)
pair, here stored as two fields. -/
structure VoteContext where
  id : String
  objectType : ObjectType
  opinions : List Opinion
  rounds : Nat
  proportionLiked : ℚ
  ownWeight : ℚ
  totalWeights : ℚ
deriving DecidableEq

/-- Modelled from the spec: vote.NewContext seeds the opinion sequence with
the initial opinion; rounds start at 0, proportionLiked at 0, weights at
(0, 0). -/
def newContext (id : String) (ty : ObjectType) (initOpn : Opinion) : VoteContext :=
  { id := id, objectType := ty, opinions := [initOpn], rounds := 0,
    proportionLiked := 0, ownWeight := 0, totalWeights := 0 }

/-- Modelled from the spec: vote.Context.LastOpinion returns the last element
of the opinion sequence (which is never empty). -/
def lastOpinion (c : VoteContext) : Opinion :=
  c.opinions.getLastD Opinion.Unknown

/-- Modelled from the spec: vote.Context.AddOpinion appends an opinion. -/
def addOpinion (c : VoteContext) (o : Opinion) : VoteContext :=
  { c with opinions := c.opinions ++ [o] }

/-- Modelled from the spec: vote.Context.IsNew holds iff no round has ticked
yet. -/
def isNew (c : VoteContext) : Bool :=
  c.rounds = 0

/-- Modelled from the spec: vote.Context.HadFirstRound holds iff rounds equals
cooldown + 1. -/
def hadFirstRound (cool : Nat) (c : VoteContext) : Bool :=
  c.rounds = cool + 1

/-- Modelled from the spec: vote.Context.HadFixedRound holds iff rounds
exceeds cooldown + finalization + fixed. -/
def hadFixedRound (cool fin fixed : Nat) (c : VoteContext) : Bool :=
  cool + fin + fixed < c.rounds

/-- Modelled from the spec: vote.Context.IsFinalized holds iff
rounds - cooldown is at least the finalization threshold, the last
finalization-many opinions exist and are identical, and none of them is
Unknown. -/
def isFinalized (cool fin : Nat) (c : VoteContext) : Bool :=
  decide ((fin : Int) ≤ (c.rounds : Int) - (cool : Int)) &&
  decide (fin ≤ c.opinions.length) &&
  (let tail := c.opinions.drop (c.opinions.length - fin)
   tail.all (fun o => decide (tail.head? = some o) && decide (o ≠ Opinion.Unknown)))

/-- Modelled from the spec: the Parameters configuration record of the fpc
package (its parameters file is not in the provided sources); fields named
after the Go parameters used in fpc.go. -/
structure Parameters where
  firstRoundLowerBoundThreshold : ℚ
  firstRoundUpperBoundThreshold : ℚ
  subsequentRoundsLowerBoundThreshold : ℚ
  subsequentRoundsUpperBoundThreshold : ℚ
  endingRoundsFixedThreshold : ℚ
  totalRoundsCoolingOffPeriod : Nat
  totalRoundsFinalization : Nat
  totalRoundsFixedThreshold : Nat
  maxRoundsPerVoteContext : Nat
  minOpinionsReceived : Nat
  querySampleSize : Nat
  maxQuerySampleSize : Nat
deriving DecidableEq

/-- Modelled from the spec: RandUniformThreshold draws the round threshold as
lower + r * (upper - lower). -/
def randUniformThreshold (r lower upper : ℚ) : ℚ :=
  lower + r * (upper - lower)

/-- Association-list lookup with decidable key equality; stands in for Go map
indexing with a comma-ok check. -/
def assocLookup {α β : Type} [DecidableEq α] : List (α × β) → α → Option β
  | [], _ => none
  | (a, b) :: rest, k => if a = k then some b else assocLookup rest k

/-- Association-list pointwise update of the entry with the given key (a no-op
when the key is absent). -/
def updateAssoc {α β : Type} [DecidableEq α] (l : List (α × β)) (k : α) (f : β → β) :
    List (α × β) :=
  l.map (fun p => if p.1 = k then (p.1, f p.2) else p)

/-- Association-list insert-or-replace; stands in for Go map assignment. -/
def upsertAssoc {α β : Type} [DecidableEq α] (l : List (α × β)) (k : α) (v : β) :
    List (α × β) :=
  if (assocLookup l k).isSome then
    l.map (fun p => if p.1 = k then (p.1, v) else p)
  else l ++ [(k, v)]

/-- Removes the first occurrence of an element; stands in for Go map key
deletion on the queue set. -/
def eraseFirst {α : Type} [DecidableEq α] : List α → α → List α
  | [], _ => []
  | a :: rest, k => if a = k then rest else a :: eraseFirst rest k

/-- Errors surfaced by Vote and IntermediateOpinion (ErrVoteAlreadyOngoing in
fpc.go, vote.ErrVotingNotFound). -/
inductive VoteStateError
  | voteAlreadyOngoing
  | votingNotFound
deriving DecidableEq

/-- The mutable part of the FPC struct of fpc.go: the admission queue (a list,
front first), the companion queued-id set, the active vote-context registry
(a unique-key association list standing in for the Go map), and the
lastRoundCompletedSuccessfully flag. -/
structure FPCState where
  queue : List VoteContext
  queueSet : List String
  ctxs : List (String × VoteContext)
  lastRoundCompletedSuccessfully : Bool
deriving DecidableEq

/-- The state produced by fpc.New: empty queue, empty queue set, empty
registry, flag down. -/
def newFPC : FPCState :=
  { queue := [], queueSet := [], ctxs := [], lastRoundCompletedSuccessfully := false }

/-- FPC.Vote of fpc.go: reject when the id is already queued or already has an
active context, otherwise append a fresh context to the queue and record the
id in the queue set.  The Go method mutates the receiver and returns an error;
here it returns the new state and an optional error. -/
def Vote (st : FPCState) (id : String) (ty : ObjectType) (initOpn : Opinion) :
    FPCState × Option VoteStateError :=
  if id ∈ st.queueSet then (st, some VoteStateError.voteAlreadyOngoing)
  else if (assocLookup st.ctxs id).isSome then (st, some VoteStateError.voteAlreadyOngoing)
  else ({ st with
            queue := st.queue ++ [newContext id ty initOpn],
            queueSet := st.queueSet ++ [id] }, none)

/-- FPC.IntermediateOpinion of fpc.go: look the id up in the active registry
only; on a miss return Unknown together with ErrVotingNotFound, otherwise the
context's last opinion. -/
def IntermediateOpinion (st : FPCState) (id : String) : Opinion × Option VoteStateError :=
  match assocLookup st.ctxs id with
  | none => (Opinion.Unknown, some VoteStateError.votingNotFound)
  | some c => (lastOpinion c, none)

/-- FPC.biasTowardsOwnOpinion of fpc.go: with zero own or total weight return
the liked proportion unchanged; likewise when the converted last opinion is
negative; otherwise blend the own opinion scalar with the liked proportion by
the mana ratio. -/
def biasTowardsOwnOpinion (c : VoteContext) : ℚ :=
  if c.ownWeight = 0 ∨ c.totalWeights = 0 then c.proportionLiked
  else if ConvertOpinionToFloat64 (lastOpinion c) < 0 then c.proportionLiked
  else c.ownWeight / c.totalWeights * ConvertOpinionToFloat64 (lastOpinion c) +
       (1 - c.ownWeight / c.totalWeights) * c.proportionLiked

/-- The opinion scalar exactly as the spec words it for the Bias component: 1
for Like and 0 for Dislike (Unknown never reaches the blending branch). -/
def specOpinionScalar : Opinion → ℚ
  | Opinion.Like => 1
  | _ => 0

/-- C5: Vote fails with VoteAlreadyOngoing exactly when the id is queued or
active; a failing Vote leaves the state unchanged; a successful Vote appends a
fresh context with the single initial opinion to the queue and records the id
in the queue set. -/
theorem vote_already_ongoing_iff (st : FPCState) (id : String) (ty : ObjectType)
    (initOpn : Opinion) :
    ((Vote st id ty initOpn).2 = some VoteStateError.voteAlreadyOngoing ↔
      id ∈ st.queueSet ∨ (assocLookup st.ctxs id).isSome = true) ∧
    ((Vote st id ty initOpn).2.isSome = true → (Vote st id ty initOpn).1 = st) ∧
    ((Vote st id ty initOpn).2 = none →
      (Vote st id ty initOpn).1 =
        { st with
            queue := st.queue ++ [newContext id ty initOpn],
            queueSet := st.queueSet ++ [id] } ∧
      (newContext id ty initOpn).opinions = [initOpn]) := by
  unfold Vote
  by_cases hq : id ∈ st.queueSet
  · simp [hq]
  · by_cases hc : (assocLookup st.ctxs id).isSome = true
    · simp [hq, hc]
    · simp [hq, hc, newContext]

/-- Closed instantiation of the C5 theorem at a concrete state. -/
theorem vote_already_ongoing_iff_witness :
    ((Vote newFPC "a" ObjectType.Conflict Opinion.Like).2 =
        some VoteStateError.voteAlreadyOngoing ↔
      "a" ∈ newFPC.queueSet ∨ (assocLookup newFPC.ctxs "a").isSome = true) ∧
    ((Vote newFPC "a" ObjectType.Conflict Opinion.Like).2.isSome = true →
      (Vote newFPC "a" ObjectType.Conflict Opinion.Like).1 = newFPC) ∧
    ((Vote newFPC "a" ObjectType.Conflict Opinion.Like).2 = none →
      (Vote newFPC "a" ObjectType.Conflict Opinion.Like).1 =
        { newFPC with
            queue := newFPC.queue ++ [newContext "a" ObjectType.Conflict Opinion.Like],
            queueSet := newFPC.queueSet ++ ["a"] } ∧
      (newContext "a" ObjectType.Conflict Opinion.Like).opinions = [Opinion.Like]) :=
  vote_already_ongoing_iff newFPC "a" ObjectType.Conflict Opinion.Like

/-- C6: IntermediateOpinion returns the last opinion of the registry context
when the id is active, and fails with VotingNotFound whenever the id is absent
from the registry, regardless of whether it sits in the admission queue. -/
theorem intermediateOpinion_spec (st : FPCState) (id : String) :
    (∀ c, assocLookup st.ctxs id = some c →
      IntermediateOpinion st id = (lastOpinion c, none)) ∧
    (assocLookup st.ctxs id = none →
      IntermediateOpinion st id = (Opinion.Unknown, some VoteStateError.votingNotFound)) := by
  constructor
  · intro c hc
    simp [IntermediateOpinion, hc]
  · intro hc
    simp [IntermediateOpinion, hc]

/-- Closed instantiation of the C6 theorem: a queued-but-not-promoted id is
reported as VotingNotFound. -/
theorem intermediateOpinion_spec_witness :
    assocLookup (Vote newFPC "a" ObjectType.Conflict Opinion.Like).1.ctxs "a" = none ∧
    "a" ∈ (Vote newFPC "a" ObjectType.Conflict Opinion.Like).1.queueSet ∧
    IntermediateOpinion (Vote newFPC "a" ObjectType.Conflict Opinion.Like).1 "a" =
      (Opinion.Unknown, some VoteStateError.votingNotFound) :=
  ⟨by decide, by decide,
   (intermediateOpinion_spec (Vote newFPC "a" ObjectType.Conflict Opinion.Like).1 "a").2
     (by decide)⟩

/-- C7: the bias computation returns proportionLiked unchanged when the own
weight is zero, the total weight is zero, or the last own opinion is Unknown
(the one opinion with a negative encoding); otherwise it returns the mana-ratio
blend of the own-opinion scalar (1 for Like, 0 for Dislike) with
proportionLiked. -/
theorem biasTowardsOwnOpinion_spec (c : VoteContext) :
    biasTowardsOwnOpinion c =
      if c.ownWeight = 0 ∨ c.totalWeights = 0 ∨ lastOpinion c = Opinion.Unknown then
        c.proportionLiked
      else
        c.ownWeight / c.totalWeights * specOpinionScalar (lastOpinion c) +
          (1 - c.ownWeight / c.totalWeights) * c.proportionLiked := by
  unfold biasTowardsOwnOpinion
  by_cases hw : c.ownWeight = 0 ∨ c.totalWeights = 0
  · rcases hw with h | h <;> simp [h]
  · rcases h : lastOpinion c with _ | _ | _ <;>
      simp [hw, h, ConvertOpinionToFloat64, specOpinionScalar]

/-- Modelled from the spec: the OpinionGiver capability carries an opaque
stringifiable identity and a mana weight; it is the value used as the key of
the Go sampling map.  Its Query method is modelled separately in the round
environment. -/
structure OpinionGiver where
  gid : String
  mana : ℚ
deriving DecidableEq

/-- The random source consumed by the samplers: the n-th Float64 draw (a
rational standing in for a float in the unit interval) and the n-th Intn draw
(reduced modulo the requested bound at the call site). -/
structure Rng where
  floats : Nat → ℚ
  ints : Nat → Nat

/-- Placeholder giver used for slice indexing that is always in range in the
Go source. -/
def defaultGiver : OpinionGiver :=
  { gid := "", mana := 0 }

/-- The toleranceTotalMana constant of fpc.go (0.001). -/
def toleranceTotalMana : ℚ := 1 / 1000

/-- One Go map increment opinionGiversToQuery++: bump the count of the giver,
starting at 1 when it was absent. -/
def bump (acc : List (OpinionGiver × Nat)) (g : OpinionGiver) :
    List (OpinionGiver × Nat) :=
  if (assocLookup acc g).isSome then updateAssoc acc g (· + 1)
  else acc ++ [(g, 1)]

/-- The accumulation loop of ManaBasedSampling that sums the consensus mana
while appending each running total to the totals slice. -/
def totalsOf (givers : List OpinionGiver) : ℚ × List ℚ :=
  givers.foldl (fun acc g => (acc.1 + g.mana, acc.2 ++ [acc.1 + g.mana])) (0, [])

/-- The inner selection loop of ManaBasedSampling: the first index whose
running total strictly exceeds the draw, scanning left to right. -/
def scanSelect (rnd : ℚ) : List ℚ → Nat → Option Nat
  | [], _ => none
  | v :: rest, idx => if rnd < v then some idx else scanSelect rnd rest (idx + 1)

/-- The weighted sampling loop of ManaBasedSampling: up to fuel attempts
(started with maxQuerySampleSize), each drawing floats(i) * total and bumping
the selected giver, stopping as soon as the map holds querySampleSize distinct
givers. -/
def weightedLoop (givers : List OpinionGiver) (totals : List ℚ) (total : ℚ)
    (q : Nat) (rng : Rng) : Nat → Nat → List (OpinionGiver × Nat) → List (OpinionGiver × Nat)
  | _, 0, acc => acc
  | i, fuel + 1, acc =>
    if acc.length < q then
      let acc' :=
        match scanSelect (rng.floats i * total) totals 0 with
        | some idx => bump acc (givers.getD idx defaultGiver)
        | none => acc
      weightedLoop givers totals total q rng (i + 1) fuel acc'
    else acc

/-- UniformSampling of fpc.go: querySampleSize draws with replacement, each
bumping the drawn giver's count (maxQuerySampleSize is accepted and unused,
as in the source). -/
def UniformSampling (givers : List OpinionGiver) (maxQuerySampleSize querySampleSize : Nat)
    (rng : Rng) : List (OpinionGiver × Nat) :=
  (List.range querySampleSize).foldl
    (fun acc i => bump acc (givers.getD (rng.ints i % givers.length) defaultGiver)) []

/-- ManaBasedSampling of fpc.go: accumulate the mana totals; when the absolute
total is within tolerance fall back to UniformSampling paired with a zero
total, otherwise run the weighted loop and pair it with the real total. -/
def ManaBasedSampling (givers : List OpinionGiver) (maxQuerySampleSize querySampleSize : Nat)
    (rng : Rng) : List (OpinionGiver × Nat) × ℚ :=
  let t := totalsOf givers
  if abs t.1 ≤ toleranceTotalMana then
    (UniformSampling givers maxQuerySampleSize querySampleSize rng, 0)
  else
    (weightedLoop givers t.2 t.1 querySampleSize rng 0 maxQuerySampleSize [], t.1)

/-- Cumulative prefix sums of the givers' mana, written the way the spec
describes them. -/
def specPrefixSums : List OpinionGiver → List ℚ
  | [] => []
  | g :: rest => g.mana :: (specPrefixSums rest).map (fun v => g.mana + v)

/-- Counting the multiplicities of a list of draws, as the spec words the
uniform fallback. -/
def specCountMultiset (draws : List OpinionGiver) : List (OpinionGiver × Nat) :=
  draws.foldl bump []

/-- Uniform sampling as the spec words it: querySampleSize independent draws
with replacement, then count multiplicities. -/
def specUniformSampling (givers : List OpinionGiver) (querySampleSize : Nat) (rng : Rng) :
    List (OpinionGiver × Nat) :=
  specCountMultiset
    ((List.range querySampleSize).map
      (fun i => givers.getD (rng.ints i % givers.length) defaultGiver))

/-- One attempt of the weighted sampling as the spec words it: do nothing once
querySampleSize distinct givers are selected, otherwise draw x = uniform(0, M)
and bump the giver whose cumulative prefix first exceeds x. -/
def specWeightedStep (givers : List OpinionGiver) (total : ℚ) (q : Nat) (rng : Rng)
    (acc : List (OpinionGiver × Nat)) (i : Nat) : List (OpinionGiver × Nat) :=
  if q ≤ acc.length then acc
  else
    match (specPrefixSums givers).findIdx? (fun v => decide (rng.floats i * total < v)) with
    | some idx => bump acc (givers.getD idx defaultGiver)
    | none => acc

/-- Weighted sampling as the spec words it: fold the attempt step over the
first maxQuerySampleSize attempt indices. -/
def specWeightedSampling (givers : List OpinionGiver) (total : ℚ)
    (maxQuerySampleSize q : Nat) (rng : Rng) : List (OpinionGiver × Nat) :=
  (List.range maxQuerySampleSize).foldl (specWeightedStep givers total q rng) []

theorem totalsOf_go (l : List OpinionGiver) (t : ℚ) (acc : List ℚ) :
    l.foldl (fun acc g => (acc.1 + g.mana, acc.2 ++ [acc.1 + g.mana])) (t, acc) =
      (t + (l.map OpinionGiver.mana).sum, acc ++ (specPrefixSums l).map (fun v => t + v)) := by
  induction l generalizing t acc with
  | nil => simp [specPrefixSums]
  | cons g rest ih =>
    simp only [List.foldl_cons, ih, specPrefixSums, List.map_cons, List.map_map,
      List.sum_cons, Prod.mk.injEq]
    refine ⟨by ring, ?_⟩
    simp [Function.comp, List.append_assoc, add_assoc]

theorem totalsOf_eq (givers : List OpinionGiver) :
    totalsOf givers = ((givers.map OpinionGiver.mana).sum, specPrefixSums givers) := by
  have h := totalsOf_go givers 0 []
  have hmap : (specPrefixSums givers).map (fun v => (0 : ℚ) + v) = specPrefixSums givers := by
    simp
  rw [totalsOf, h, hmap, zero_add, List.nil_append]

theorem scanSelect_eq (rnd : ℚ) (l : List ℚ) (i : Nat) :
    scanSelect rnd l i = (l.findIdx? (fun v => decide (rnd < v))).map (fun j => j + i) := by
  induction l generalizing i with
  | nil => simp [scanSelect]
  | cons v rest ih =>
    by_cases h : rnd < v
    · simp [scanSelect, h, List.findIdx?]
    · simp only [scanSelect, if_neg h, ih (i + 1), List.findIdx?]
      simp only [h, Option.map_map, Function.comp, decide_eq_true_eq, if_false,
        decide_False, Bool.false_eq_true, ite_false]
      have hf : (fun j : Nat => j + (i + 1)) = fun x : Nat => x + (1 + i) := by
        funext x
        omega
      simp [h, Option.map_map, Function.comp, hf]

theorem specWeightedStep_saturated (givers : List OpinionGiver) (total : ℚ) (q : Nat)
    (rng : Rng) (acc : List (OpinionGiver × Nat)) (h : q ≤ acc.length)
    (l : List Nat) : l.foldl (specWeightedStep givers total q rng) acc = acc := by
  induction l with
  | nil => rfl
  | cons i rest ih => simp [List.foldl_cons, specWeightedStep, h, ih]

theorem weightedLoop_eq_spec (givers : List OpinionGiver) (total : ℚ) (q : Nat)
    (rng : Rng) (fuel i : Nat) (acc : List (OpinionGiver × Nat)) :
    weightedLoop givers (specPrefixSums givers) total q rng i fuel acc =
      (List.range' i fuel).foldl (specWeightedStep givers total q rng) acc := by
  induction fuel generalizing i acc with
  | zero => rfl
  | succ fuel ih =>
    rw [List.range'_succ, List.foldl_cons]
    by_cases h : acc.length < q
    · rw [weightedLoop, if_pos h, ih]
      congr 1
      rw [specWeightedStep, if_neg (by omega)]
      rw [scanSelect_eq]
      cases (specPrefixSums givers).findIdx?
          (fun v => decide (rng.floats i * total < v)) with
      | none => rfl
      | some j => simp
    · rw [weightedLoop, if_neg h]
      rw [show specWeightedStep givers total q rng acc i = acc from by
        simp [specWeightedStep, Nat.le_of_not_lt h]]
      rw [specWeightedStep_saturated givers total q rng acc (Nat.le_of_not_lt h)]

/-- C8: ManaBasedSampling sums the givers' mana into M; within the 0.001
tolerance it returns the uniform fallback paired with a zero total, where
UniformSampling is exactly querySampleSize counted draws with replacement;
otherwise it returns the prefix-sum weighted sampling with at most
maxQuerySampleSize attempts and early stop at querySampleSize distinct
givers, paired with M. -/
theorem manaBasedSampling_spec (givers : List OpinionGiver)
    (maxQuerySampleSize querySampleSize : Nat) (rng : Rng) :
    (abs ((givers.map OpinionGiver.mana).sum) ≤ toleranceTotalMana →
      ManaBasedSampling givers maxQuerySampleSize querySampleSize rng =
        (UniformSampling givers maxQuerySampleSize querySampleSize rng, 0)) ∧
    (toleranceTotalMana < abs ((givers.map OpinionGiver.mana).sum) →
      ManaBasedSampling givers maxQuerySampleSize querySampleSize rng =
        (specWeightedSampling givers ((givers.map OpinionGiver.mana).sum)
          maxQuerySampleSize querySampleSize rng,
         (givers.map OpinionGiver.mana).sum)) ∧
    UniformSampling givers maxQuerySampleSize querySampleSize rng =
      specUniformSampling givers querySampleSize rng := by
  refine ⟨?_, ?_, ?_⟩
  · intro h
    rw [ManaBasedSampling]
    simp only [totalsOf_eq]
    rw [if_pos h]
  · intro h
    rw [ManaBasedSampling]
    simp only [totalsOf_eq]
    rw [if_neg (not_le.mpr h), specWeightedSampling, List.range_eq_range',
      ← weightedLoop_eq_spec]
  · rw [UniformSampling, specUniformSampling, specCountMultiset, List.foldl_map]

/-- Closed instantiation of the C8 theorem on two unit-mana givers (weighted
branch) and on two zero-mana givers (uniform fallback branch). -/
theorem manaBasedSampling_spec_witness :
    ManaBasedSampling [⟨"a", 1⟩, ⟨"b", 1⟩] 3 2 ⟨fun _ => 1 / 2, fun _ => 0⟩ =
      (specWeightedSampling [⟨"a", 1⟩, ⟨"b", 1⟩]
        (([⟨"a", 1⟩, ⟨"b", (1 : ℚ)⟩].map OpinionGiver.mana).sum) 3 2
        ⟨fun _ => 1 / 2, fun _ => 0⟩,
       ([⟨"a", 1⟩, ⟨"b", (1 : ℚ)⟩].map OpinionGiver.mana).sum) ∧
    ManaBasedSampling [⟨"a", 0⟩, ⟨"b", 0⟩] 3 2 ⟨fun _ => 1 / 2, fun _ => 0⟩ =
      (UniformSampling [⟨"a", 0⟩, ⟨"b", 0⟩] 3 2 ⟨fun _ => 1 / 2, fun _ => 0⟩, 0) :=
  ⟨(manaBasedSampling_spec [⟨"a", 1⟩, ⟨"b", 1⟩] 3 2 ⟨fun _ => 1 / 2, fun _ => 0⟩).2.1
     (by norm_num [toleranceTotalMana, OpinionGiver.mana]),
   (manaBasedSampling_spec [⟨"a", 0⟩, ⟨"b", 0⟩] 3 2 ⟨fun _ => 1 / 2, fun _ => 0⟩).1
     (by norm_num [toleranceTotalMana, OpinionGiver.mana])⟩

theorem updateAssoc_keys {α β : Type} [DecidableEq α] (l : List (α × β)) (k : α)
    (f : β → β) : (updateAssoc l k f).map Prod.fst = l.map Prod.fst := by
  induction l with
  | nil => rfl
  | cons p rest ih =>
    simp only [updateAssoc, List.map_cons] at ih ⊢
    by_cases h : p.1 = k <;> simp [h, ih]

theorem assocLookup_eq_none {α β : Type} [DecidableEq α] (l : List (α × β)) (k : α) :
    assocLookup l k = none ↔ k ∉ l.map Prod.fst := by
  induction l with
  | nil => simp [assocLookup]
  | cons p rest ih =>
    simp only [assocLookup, List.map_cons, List.mem_cons]
    by_cases h : p.1 = k
    · simp [h]
    · simp only [if_neg h, ih]
      constructor
      · intro hn
        push_neg
        exact ⟨fun hk => h hk.symm, hn⟩
      · intro hn
        push_neg at hn
        exact hn.2

theorem updateAssoc_of_not_mem {α β : Type} [DecidableEq α] (l : List (α × β)) (k : α)
    (f : β → β) : k ∉ l.map Prod.fst → updateAssoc l k f = l := by
  induction l with
  | nil => intro _; rfl
  | cons p rest ih =>
    intro h
    simp only [List.map_cons, List.mem_cons, not_or] at h
    simp only [updateAssoc, List.map_cons] at ih ⊢
    rw [if_neg (fun hh => h.1 hh.symm), ih h.2]

theorem updateAssoc_cons {α β : Type} [DecidableEq α] (p : α × β) (rest : List (α × β))
    (k : α) (f : β → β) :
    updateAssoc (p :: rest) k f =
      (if p.1 = k then (p.1, f p.2) else p) :: updateAssoc rest k f := by
  simp [updateAssoc]

theorem updateAssoc_inc_sum (l : List (OpinionGiver × Nat)) (k : OpinionGiver) :
    (l.map Prod.fst).Nodup → (assocLookup l k).isSome = true →
    ((updateAssoc l k (· + 1)).map Prod.snd).sum = (l.map Prod.snd).sum + 1 := by
  induction l with
  | nil => intro _ hk; simp [assocLookup] at hk
  | cons p rest ih =>
    intro hnd hk
    simp only [List.map_cons, List.nodup_cons] at hnd
    rw [updateAssoc_cons]
    by_cases h : p.1 = k
    · have hknot : k ∉ rest.map Prod.fst := by
        rw [← h]
        exact hnd.1
      rw [if_pos h, updateAssoc_of_not_mem rest k _ hknot]
      simp only [List.map_cons, List.sum_cons]
      omega
    · simp only [assocLookup, if_neg h] at hk
      rw [if_neg h]
      simp only [List.map_cons, List.sum_cons]
      rw [ih hnd.2 hk]
      omega

theorem bump_keys_nodup (acc : List (OpinionGiver × Nat)) (g : OpinionGiver) :
    (acc.map Prod.fst).Nodup → ((bump acc g).map Prod.fst).Nodup := by
  intro h
  rw [bump]
  by_cases hl : (assocLookup acc g).isSome
  · rw [if_pos hl, updateAssoc_keys]
    exact h
  · rw [if_neg hl]
    have hg : g ∉ acc.map Prod.fst := by
      rw [← assocLookup_eq_none]
      exact Option.not_isSome_iff_eq_none.mp hl
    simp [List.nodup_append, h, hg]

theorem bump_counts (acc : List (OpinionGiver × Nat)) (g : OpinionGiver)
    (h : ∀ p ∈ acc, 1 ≤ p.2) : ∀ p ∈ bump acc g, 1 ≤ p.2 := by
  intro p hp
  rw [bump] at hp
  by_cases hl : (assocLookup acc g).isSome
  · rw [if_pos hl, updateAssoc] at hp
    obtain ⟨q, hq, hpq⟩ := List.mem_map.mp hp
    by_cases hk : q.1 = g
    · rw [if_pos hk] at hpq
      rw [← hpq]
      have := h q hq
      omega
    · rw [if_neg hk] at hpq
      rw [← hpq]
      exact h q hq
  · rw [if_neg hl] at hp
    rcases List.mem_append.mp hp with h1 | h2
    · exact h p h1
    · simp only [List.mem_singleton] at h2
      rw [h2]

theorem bump_length (acc : List (OpinionGiver × Nat)) (g : OpinionGiver) :
    (bump acc g).length ≤ acc.length + 1 := by
  rw [bump]
  by_cases hl : (assocLookup acc g).isSome
  · rw [if_pos hl, updateAssoc]
    simp
  · rw [if_neg hl]
    simp

theorem bump_sum (acc : List (OpinionGiver × Nat)) (g : OpinionGiver)
    (hnd : (acc.map Prod.fst).Nodup) :
    ((bump acc g).map Prod.snd).sum = (acc.map Prod.snd).sum + 1 := by
  rw [bump]
  by_cases hl : (assocLookup acc g).isSome
  · rw [if_pos hl]
    exact updateAssoc_inc_sum acc g hnd hl
  · rw [if_neg hl]
    simp

theorem weightedLoop_inv (givers : List OpinionGiver) (totals : List ℚ) (total : ℚ)
    (q : Nat) (rng : Rng) :
    ∀ (fuel i : Nat) (acc res : List (OpinionGiver × Nat)),
      (acc.map Prod.fst).Nodup → (∀ p ∈ acc, 1 ≤ p.2) →
      res = weightedLoop givers totals total q rng i fuel acc →
      ((res.map Prod.fst).Nodup ∧ ∀ p ∈ res, 1 ≤ p.2) ∧
      (acc.length ≤ q → res.length ≤ q) ∧
      (res.map Prod.snd).sum ≤ (acc.map Prod.snd).sum + fuel := by
  intro fuel
  induction fuel with
  | zero =>
    intro i acc res h1 h2 hres
    rw [weightedLoop] at hres
    subst hres
    exact ⟨⟨h1, h2⟩, fun hq => hq, by omega⟩
  | succ fuel ih =>
    intro i acc res h1 h2 hres
    rw [weightedLoop] at hres
    by_cases hlen : acc.length < q
    · rw [if_pos hlen] at hres
      rcases hsel : scanSelect (rng.floats i * total) totals 0 with _ | idx <;>
          rw [hsel] at hres
      · have step := ih (i + 1) acc res h1 h2 hres
        exact ⟨step.1, step.2.1, by have := step.2.2; omega⟩
      · have hnd' := bump_keys_nodup acc (givers.getD idx defaultGiver) h1
        have hcnt' := bump_counts acc (givers.getD idx defaultGiver) h2
        have hlen' := bump_length acc (givers.getD idx defaultGiver)
        have hsum' := bump_sum acc (givers.getD idx defaultGiver) h1
        have step := ih (i + 1) (bump acc (givers.getD idx defaultGiver)) res hnd' hcnt' hres
        refine ⟨step.1, ?_, ?_⟩
        · intro hq
          exact step.2.1 (by omega)
        · have := step.2.2
          omega
    · rw [if_neg hlen] at hres
      subst hres
      exact ⟨⟨h1, h2⟩, fun hq => hq, by omega⟩

/-- C10: above the mana tolerance, the sampling map binds every recorded giver
to a count of at least 1, holds at most querySampleSize distinct givers, and
its counts sum to at most maxQuerySampleSize. -/
theorem manaBasedSampling_bounds (givers : List OpinionGiver)
    (maxQuerySampleSize querySampleSize : Nat) (rng : Rng)
    (h : toleranceTotalMana < abs ((givers.map OpinionGiver.mana).sum)) :
    (((ManaBasedSampling givers maxQuerySampleSize querySampleSize rng).1.map
        Prod.fst).Nodup) ∧
    (∀ p ∈ (ManaBasedSampling givers maxQuerySampleSize querySampleSize rng).1,
      1 ≤ p.2) ∧
    (ManaBasedSampling givers maxQuerySampleSize querySampleSize rng).1.length ≤
      querySampleSize ∧
    (((ManaBasedSampling givers maxQuerySampleSize querySampleSize rng).1.map
        Prod.snd).sum) ≤ maxQuerySampleSize := by
  have hmbs : (ManaBasedSampling givers maxQuerySampleSize querySampleSize rng).1 =
      weightedLoop givers (specPrefixSums givers) ((givers.map OpinionGiver.mana).sum)
        querySampleSize rng 0 maxQuerySampleSize [] := by
    rw [ManaBasedSampling]
    simp only [totalsOf_eq]
    rw [if_neg (not_le.mpr h)]
  rw [hmbs]
  have inv := weightedLoop_inv givers (specPrefixSums givers)
      ((givers.map OpinionGiver.mana).sum) querySampleSize rng maxQuerySampleSize 0 [] _
      (by simp) (by simp) rfl
  refine ⟨inv.1.1, inv.1.2, ?_, ?_⟩
  · exact inv.2.1 (by simp)
  · have := inv.2.2
    simp only [List.map_nil, List.sum_nil] at this
    omega

/-- Closed instantiation of the C10 theorem on two unit-mana givers. -/
theorem manaBasedSampling_bounds_witness :
    (((ManaBasedSampling [⟨"a", 1⟩, ⟨"b", 1⟩] 3 2 ⟨fun _ => 1 / 2, fun _ => 0⟩).1.map
        Prod.fst).Nodup) ∧
    (∀ p ∈ (ManaBasedSampling [⟨"a", 1⟩, ⟨"b", 1⟩] 3 2 ⟨fun _ => 1 / 2, fun _ => 0⟩).1,
      1 ≤ p.2) ∧
    (ManaBasedSampling [⟨"a", 1⟩, ⟨"b", 1⟩] 3 2 ⟨fun _ => 1 / 2, fun _ => 0⟩).1.length ≤ 2 ∧
    (((ManaBasedSampling [⟨"a", 1⟩, ⟨"b", 1⟩] 3 2 ⟨fun _ => 1 / 2, fun _ => 0⟩).1.map
        Prod.snd).sum) ≤ 3 :=
  manaBasedSampling_bounds [⟨"a", 1⟩, ⟨"b", 1⟩] 3 2 ⟨fun _ => 1 / 2, fun _ => 0⟩
    (by norm_num [toleranceTotalMana, OpinionGiver.mana])

/-- The per-giver record of a query round (opinion.QueriedOpinions): the
giver's id, its per-item opinions (a Go map modelled as an association list in
insertion order), and the replication count. -/
structure QueriedOpinions where
  opinionGiverID : String
  opinions : List (String × Opinion)
  timesCounted : Nat
deriving DecidableEq

/-- The error outcomes of the query stage of a round: a failing opinion-giver
supplier, an empty supplier result (ErrNoOpinionGiversAvailable), or a failing
own-weight retriever. -/
inductive RoundError
  | supplierError
  | noOpinionGiversAvailable
  | ownWeightError
deriving DecidableEq

/-- The external world of one Round call: the supplier outcome, the own-weight
retriever outcome, each giver's Query behaviour (none modelling an error or a
timeout), and the random source. -/
structure RoundEnv where
  opinionGivers : Option (List OpinionGiver)
  ownWeight : Option ℚ
  queryResp : OpinionGiver → List String → List String → Option (List Opinion)
  rng : Rng

/-- The events a Round call can emit (vote.Events), carrying the payload parts
the claims are about. -/
inductive Event
  | finalized (id : String) (opn : Opinion)
  | failed (id : String) (opn : Opinion)
  | roundExecuted (queried : List QueriedOpinions)
deriving DecidableEq

/-- FPC.voteContextIDs of fpc.go: split the registry ids into the conflict
list and the timestamp list. -/
def voteContextIDs (ctxs : List (String × VoteContext)) : List String × List String :=
  (ctxs.filterMap (fun pc =>
      if pc.2.objectType = ObjectType.Conflict then some pc.1 else none),
   ctxs.filterMap (fun pc =>
      if pc.2.objectType = ObjectType.Timestamp then some pc.1 else none))

/-- createVoteMapForConflicts of fpc.go: an empty tally for every conflict id
and every timestamp id. -/
def createVoteMapForConflicts (conflictIDs timestampIDs : List String) :
    List (String × List Opinion) :=
  conflictIDs.map (fun id => (id, [])) ++ timestampIDs.map (fun id => (id, []))

/-- One Go voteMap[id] = append(voteMap[id], ...) block: extend the tally of
the id (creating it when absent, as Go map indexing does). -/
def appendVotes (vm : List (String × List Opinion)) (id : String)
    (new : List Opinion) : List (String × List Opinion) :=
  if (assocLookup vm id).isSome then updateAssoc vm id (fun votes => votes ++ new)
  else vm ++ [(id, new)]

/-- One iteration of the per-giver tally loops of FPC.queryOpinions: read the
response element at the loop-local index, append it selectedCount times to the
id's tally, and record it in the giver's QueriedOpinions map. -/
def tallyStep (opinions : List Opinion) (cnt : Nat)
    (acc : List (String × List Opinion) × List (String × Opinion)) (p : Nat × String) :
    List (String × List Opinion) × List (String × Opinion) :=
  (appendVotes acc.1 p.2 (List.replicate cnt (opinions.getD p.1 Opinion.Unknown)),
   upsertAssoc acc.2 p.2 (opinions.getD p.1 Opinion.Unknown))

/-- The tally section of one query goroutine of FPC.queryOpinions (lines
260-283): the conflict loop reads opinions[i] for the i-th conflict id, and
the timestamp loop again reads opinions[i] for the i-th timestamp id (the Go
source indexes both loops from zero; the timestamp loop does not offset by the
number of conflict ids). -/
def tallyGiver (conflictIDs timestampIDs : List String) (opinions : List Opinion)
    (cnt : Nat) (giverID : String) (vm : List (String × List Opinion)) :
    List (String × List Opinion) × QueriedOpinions :=
  let acc1 := conflictIDs.enum.foldl (tallyStep opinions cnt) (vm, [])
  let acc2 := timestampIDs.enum.foldl (tallyStep opinions cnt) acc1
  (acc2.1, { opinionGiverID := giverID, opinions := acc2.2, timesCounted := cnt })

/-- The per-id tally reduction of FPC.queryOpinions (lines 291-303):
votedCount starts at the tally length and is decremented per Unknown, likedSum
counts the Like entries. -/
def votedCountLikedSum (votes : List Opinion) : Nat × Nat :=
  votes.foldl
    (fun acc o =>
      match o with
      | Opinion.Unknown => (acc.1 - 1, acc.2)
      | Opinion.Like => (acc.1, acc.2 + 1)
      | Opinion.Dislike => acc)
    (votes.length, 0)

/-- The aggregation loop of FPC.queryOpinions (lines 291-313): for each tally
meeting MinOpinionsReceived, overwrite the context's weights with
(ownMana, totalMana) and its proportionLiked with likedSum / votedCount;
otherwise leave the context untouched. -/
def applyTally (p : Parameters) (ownMana totalMana : ℚ) :
    List (String × List Opinion) → List (String × VoteContext) → List (String × VoteContext)
  | [], ctxs => ctxs
  | entry :: rest, ctxs =>
    applyTally p ownMana totalMana rest
      (if (votedCountLikedSum entry.2).1 < p.minOpinionsReceived then ctxs
       else updateAssoc ctxs entry.1
         (fun c => { c with
            ownWeight := ownMana, totalWeights := totalMana,
            proportionLiked := ((votedCountLikedSum entry.2).2 : ℚ) /
              ((votedCountLikedSum entry.2).1 : ℚ) }))

/-- The fan-out and aggregation tail of FPC.queryOpinions, once sampling and
the own weight succeeded: query every distinct sampled giver, discard
responses that error or have the wrong length, tally the rest, then apply the
aggregation loop. -/
def queryAggregate (p : Parameters) (env : RoundEnv) (ctxs : List (String × VoteContext))
    (ownMana : ℚ) (sampled : List (OpinionGiver × Nat) × ℚ) :
    List (String × VoteContext) × List QueriedOpinions × Option RoundError :=
  let conflictIDs := (voteContextIDs ctxs).1
  let timestampIDs := (voteContextIDs ctxs).2
  let tallied := sampled.1.foldl
    (fun (acc : List (String × List Opinion) × List QueriedOpinions) gq =>
      match env.queryResp gq.1 conflictIDs timestampIDs with
      | none => acc
      | some opinions =>
        if opinions.length = conflictIDs.length + timestampIDs.length then
          ((tallyGiver conflictIDs timestampIDs opinions gq.2 gq.1.gid acc.1).1,
           acc.2 ++ [(tallyGiver conflictIDs timestampIDs opinions gq.2 gq.1.gid acc.1).2])
        else acc)
    (createVoteMapForConflicts conflictIDs timestampIDs, [])
  (applyTally p ownMana (sampled.2 + ownMana) tallied.1 ctxs, tallied.2, none)

/-- FPC.queryOpinions of fpc.go: success with no work when there is nothing to
vote on; the supplier error, the empty-supplier error, and the own-weight
error in that order; otherwise sample, fan out, and aggregate. -/
def queryOpinions (p : Parameters) (env : RoundEnv) (ctxs : List (String × VoteContext)) :
    List (String × VoteContext) × List QueriedOpinions × Option RoundError :=
  if (voteContextIDs ctxs).1.isEmpty && (voteContextIDs ctxs).2.isEmpty then
    (ctxs, [], none)
  else
    match env.opinionGivers with
    | none => (ctxs, [], some RoundError.supplierError)
    | some givers =>
      if givers.isEmpty then (ctxs, [], some RoundError.noOpinionGiversAvailable)
      else
        match env.ownWeight with
        | none => (ctxs, [], some RoundError.ownWeightError)
        | some ownMana =>
          queryAggregate p env ctxs ownMana
            (ManaBasedSampling givers p.maxQuerySampleSize p.querySampleSize env.rng)

/-- FPC.setThreshold of fpc.go: subsequent-round bounds, overridden by the
first-round bounds after the first post-cooldown round, overridden by the
fixed ending threshold in the fixed tail. -/
def setThreshold (p : Parameters) (c : VoteContext) : ℚ × ℚ :=
  let b1 :=
    if hadFirstRound p.totalRoundsCoolingOffPeriod c then
      (p.firstRoundLowerBoundThreshold, p.firstRoundUpperBoundThreshold)
    else (p.subsequentRoundsLowerBoundThreshold, p.subsequentRoundsUpperBoundThreshold)
  if hadFixedRound p.totalRoundsCoolingOffPeriod p.totalRoundsFinalization
      p.totalRoundsFixedThreshold c then
    (p.endingRoundsFixedThreshold, p.endingRoundsFixedThreshold)
  else b1

/-- The body of one FPC.formOpinions iteration: append Like when the biased
eta reaches the drawn threshold, Dislike otherwise. -/
def formOne (p : Parameters) (r : ℚ) (c : VoteContext) : VoteContext :=
  if randUniformThreshold r (setThreshold p c).1 (setThreshold p c).2 ≤
      biasTowardsOwnOpinion c then
    addOpinion c Opinion.Like
  else addOpinion c Opinion.Dislike

/-- FPC.formOpinions of fpc.go: skip contexts that have not ticked yet, form
an opinion on the rest. -/
def formOpinions (p : Parameters) (r : ℚ) (ctxs : List (String × VoteContext)) :
    List (String × VoteContext) :=
  ctxs.map (fun pc => (pc.1, if isNew pc.2 then pc.2 else formOne p r pc.2))

/-- FPC.finalizeOpinions of fpc.go: emit Finalized and drop finalized
contexts, emit Failed and drop round-capped contexts, keep the rest. -/
def finalizeOpinions (p : Parameters) (ctxs : List (String × VoteContext)) :
    List (String × VoteContext) × List Event :=
  ctxs.foldl
    (fun acc pc =>
      if isFinalized p.totalRoundsCoolingOffPeriod p.totalRoundsFinalization pc.2 then
        (acc.1, acc.2 ++ [Event.finalized pc.1 (lastOpinion pc.2)])
      else if p.maxRoundsPerVoteContext ≤ pc.2.rounds then
        (acc.1, acc.2 ++ [Event.failed pc.1 (lastOpinion pc.2)])
      else (acc.1 ++ [pc], acc.2))
    ([], [])

/-- FPC.enqueue of fpc.go: drain the queue front to back into the registry,
erasing each promoted id from the queue set. -/
def enqueue (st : FPCState) : FPCState :=
  let drained := st.queue.foldl
    (fun acc c => (upsertAssoc acc.1 c.id c, eraseFirst acc.2 c.id))
    (st.ctxs, st.queueSet)
  { st with queue := [], ctxs := drained.1, queueSet := drained.2 }

/-- FPC.Round of fpc.go: enqueue; when the last round completed successfully,
form opinions and run the finalize/fail pass; tick every remaining context;
query; on query success raise the flag and emit RoundExecuted, on failure
return the error with the flag untouched. -/
def Round (p : Parameters) (st : FPCState) (env : RoundEnv) (r : ℚ) :
    FPCState × List Event × Option RoundError :=
  let st1 := enqueue st
  let fin :=
    if st1.lastRoundCompletedSuccessfully then
      finalizeOpinions p (formOpinions p r st1.ctxs)
    else (st1.ctxs, [])
  let ticked := fin.1.map (fun pc => (pc.1, { pc.2 with rounds := pc.2.rounds + 1 }))
  let q := queryOpinions p env ticked
  match q.2.2 with
  | none =>
    ({ st1 with ctxs := q.1, lastRoundCompletedSuccessfully := true },
     fin.2 ++ [Event.roundExecuted q.2.1], none)
  | some e => ({ st1 with ctxs := q.1 }, fin.2, some e)

/-- Iterated rounds with one fixed environment, collecting the emitted events
and the per-call error results in order. -/
def roundsTrace (p : Parameters) (env : RoundEnv) (r : ℚ) :
    Nat → FPCState → FPCState × List Event × List (Option RoundError)
  | 0, st => (st, [], [])
  | n + 1, st =>
    let step := Round p st env r
    let rest := roundsTrace p env r n step.1
    (rest.1, step.2.1 ++ rest.2.1, step.2.2 :: rest.2.2)

theorem assocLookup_updateAssoc_self {α β : Type} [DecidableEq α]
    (l : List (α × β)) (k : α) (f : β → β) :
    assocLookup (updateAssoc l k f) k = (assocLookup l k).map f := by
  induction l with
  | nil => rfl
  | cons p rest ih =>
    rw [updateAssoc_cons]
    by_cases h : p.1 = k
    · rw [if_pos h]
      simp [assocLookup, h]
    · rw [if_neg h]
      simp [assocLookup, h, ih]

theorem assocLookup_updateAssoc_ne {α β : Type} [DecidableEq α]
    (l : List (α × β)) (k k2 : α) (f : β → β) (h : k2 ≠ k) :
    assocLookup (updateAssoc l k f) k2 = assocLookup l k2 := by
  induction l with
  | nil => rfl
  | cons p rest ih =>
    rw [updateAssoc_cons]
    by_cases hp : p.1 = k
    · rw [if_pos hp]
      have hne : ¬p.1 = k2 := by
        rw [hp]
        exact fun hh => h hh.symm
      simp [assocLookup, hne, ih]
    · rw [if_neg hp]
      by_cases hp2 : p.1 = k2 <;> simp [assocLookup, hp2, ih]

theorem applyTally_not_mem (p : Parameters) (ownMana totalMana : ℚ) :
    ∀ (vm : List (String × List Opinion)) (ctxs : List (String × VoteContext))
      (id : String), id ∉ vm.map Prod.fst →
      assocLookup (applyTally p ownMana totalMana vm ctxs) id = assocLookup ctxs id := by
  intro vm
  induction vm with
  | nil => intro ctxs id _; rfl
  | cons e rest ih =>
    intro ctxs id h
    simp only [List.map_cons, List.mem_cons, not_or] at h
    simp only [applyTally]
    rw [ih _ _ h.2]
    by_cases hmin : (votedCountLikedSum e.2).1 < p.minOpinionsReceived
    · rw [if_pos hmin]
    · rw [if_neg hmin, assocLookup_updateAssoc_ne _ _ _ _ h.1]

theorem applyTally_per_id (p : Parameters) (ownMana totalMana : ℚ) :
    ∀ (vm : List (String × List Opinion)) (ctxs : List (String × VoteContext))
      (id : String) (votes : List Opinion) (c : VoteContext),
      (id, votes) ∈ vm → (vm.map Prod.fst).Nodup → assocLookup ctxs id = some c →
      assocLookup (applyTally p ownMana totalMana vm ctxs) id =
        some (if (votedCountLikedSum votes).1 < p.minOpinionsReceived then c
              else { c with
                ownWeight := ownMana, totalWeights := totalMana,
                proportionLiked := ((votedCountLikedSum votes).2 : ℚ) /
                  ((votedCountLikedSum votes).1 : ℚ) }) := by
  intro vm
  induction vm with
  | nil =>
    intro ctxs id votes c hmem
    simp at hmem
  | cons e rest ih =>
    obtain ⟨eid, evotes⟩ := e
    intro ctxs id votes c hmem hnd hc
    simp only [List.map_cons, List.nodup_cons] at hnd
    rcases List.mem_cons.mp hmem with he | hrest
    · have h1 : eid = id := by
        have := congrArg Prod.fst he
        simpa using this.symm
      have h2 : evotes = votes := by
        have := congrArg Prod.snd he
        simpa using this.symm
      subst h1
      subst h2
      simp only [applyTally]
      rw [applyTally_not_mem p ownMana totalMana rest _ eid hnd.1]
      by_cases hmin : (votedCountLikedSum evotes).1 < p.minOpinionsReceived
      · rw [if_pos hmin, hc, if_pos hmin]
      · rw [if_neg hmin, assocLookup_updateAssoc_self, hc, if_neg hmin]
        rfl
    · have hidkeys : id ∈ rest.map Prod.fst :=
        List.mem_map.mpr ⟨(id, votes), hrest, rfl⟩
      have hid_ne : id ≠ eid := fun hcontra => hnd.1 (hcontra ▸ hidkeys)
      simp only [applyTally]
      apply ih _ id votes c hrest hnd.2
      by_cases hmin : (votedCountLikedSum evotes).1 < p.minOpinionsReceived
      · rw [if_pos hmin]
        exact hc
      · rw [if_neg hmin, assocLookup_updateAssoc_ne _ _ _ _ hid_ne]
        exact hc

theorem votedCountLikedSum_go (votes : List Opinion) :
    ∀ (a b : Nat),
      votes.foldl
        (fun acc o =>
          match o with
          | Opinion.Unknown => (acc.1 - 1, acc.2)
          | Opinion.Like => (acc.1, acc.2 + 1)
          | Opinion.Dislike => acc)
        (a, b) =
      (a - votes.count Opinion.Unknown, b + votes.count Opinion.Like) := by
  induction votes with
  | nil => intro a b; simp
  | cons o rest ih =>
    intro a b
    cases o <;> simp only [List.foldl_cons] <;> rw [ih] <;>
      simp [List.count_cons, Prod.ext_iff] <;> omega

theorem votedCountLikedSum_eq (votes : List Opinion) :
    votedCountLikedSum votes =
      (votes.length - votes.count Opinion.Unknown, votes.count Opinion.Like) := by
  rw [votedCountLikedSum, votedCountLikedSum_go]
  simp

/-- C9: in the aggregation pass, an id whose votedCount (tally size minus the
Unknown count) is below MinOpinionsReceived keeps its context untouched
(weights and proportionLiked included); an id meeting the minimum gets weights
(ownMana, totalMana) and proportionLiked likedSum / votedCount. -/
theorem applyTally_spec (p : Parameters) (ownMana totalMana : ℚ)
    (vm : List (String × List Opinion)) (ctxs : List (String × VoteContext))
    (id : String) (votes : List Opinion) (c : VoteContext)
    (hmem : (id, votes) ∈ vm) (hnd : (vm.map Prod.fst).Nodup)
    (hc : assocLookup ctxs id = some c) :
    votedCountLikedSum votes =
      (votes.length - votes.count Opinion.Unknown, votes.count Opinion.Like) ∧
    (votes.length - votes.count Opinion.Unknown < p.minOpinionsReceived →
      assocLookup (applyTally p ownMana totalMana vm ctxs) id = some c) ∧
    (p.minOpinionsReceived ≤ votes.length - votes.count Opinion.Unknown →
      assocLookup (applyTally p ownMana totalMana vm ctxs) id =
        some { c with
          ownWeight := ownMana, totalWeights := totalMana,
          proportionLiked := (votes.count Opinion.Like : ℚ) /
            ((votes.length - votes.count Opinion.Unknown : Nat) : ℚ) }) := by
  have hvc := votedCountLikedSum_eq votes
  have h2 := applyTally_per_id p ownMana totalMana vm ctxs id votes c hmem hnd hc
  rw [hvc] at h2
  dsimp only at h2
  refine ⟨hvc, ?_, ?_⟩
  · intro hlt
    rw [h2, if_pos hlt]
  · intro hge
    rw [h2, if_neg (not_lt.mpr hge)]

/-- Closed instantiation of the C9 theorem on a three-vote tally with one
Unknown. -/
theorem applyTally_spec_witness :
    votedCountLikedSum [Opinion.Like, Opinion.Dislike, Opinion.Unknown] =
      ([Opinion.Like, Opinion.Dislike, Opinion.Unknown].length -
        [Opinion.Like, Opinion.Dislike, Opinion.Unknown].count Opinion.Unknown,
       [Opinion.Like, Opinion.Dislike, Opinion.Unknown].count Opinion.Like) ∧
    ([Opinion.Like, Opinion.Dislike, Opinion.Unknown].length -
        [Opinion.Like, Opinion.Dislike, Opinion.Unknown].count Opinion.Unknown < 2 →
      assocLookup
        (applyTally
          { firstRoundLowerBoundThreshold := 1/2, firstRoundUpperBoundThreshold := 1/2,
            subsequentRoundsLowerBoundThreshold := 1/2,
            subsequentRoundsUpperBoundThreshold := 1/2, endingRoundsFixedThreshold := 1/2,
            totalRoundsCoolingOffPeriod := 0, totalRoundsFinalization := 3,
            totalRoundsFixedThreshold := 2, maxRoundsPerVoteContext := 10,
            minOpinionsReceived := 2, querySampleSize := 1, maxQuerySampleSize := 3 }
          5 7 [("b", [Opinion.Like, Opinion.Dislike, Opinion.Unknown])]
          [("b", newContext "b" ObjectType.Conflict Opinion.Like)]) "b" =
        some (newContext "b" ObjectType.Conflict Opinion.Like)) ∧
    (2 ≤ [Opinion.Like, Opinion.Dislike, Opinion.Unknown].length -
        [Opinion.Like, Opinion.Dislike, Opinion.Unknown].count Opinion.Unknown →
      assocLookup
        (applyTally
          { firstRoundLowerBoundThreshold := 1/2, firstRoundUpperBoundThreshold := 1/2,
            subsequentRoundsLowerBoundThreshold := 1/2,
            subsequentRoundsUpperBoundThreshold := 1/2, endingRoundsFixedThreshold := 1/2,
            totalRoundsCoolingOffPeriod := 0, totalRoundsFinalization := 3,
            totalRoundsFixedThreshold := 2, maxRoundsPerVoteContext := 10,
            minOpinionsReceived := 2, querySampleSize := 1, maxQuerySampleSize := 3 }
          5 7 [("b", [Opinion.Like, Opinion.Dislike, Opinion.Unknown])]
          [("b", newContext "b" ObjectType.Conflict Opinion.Like)]) "b" =
        some { newContext "b" ObjectType.Conflict Opinion.Like with
          ownWeight := 5, totalWeights := 7,
          proportionLiked :=
            ([Opinion.Like, Opinion.Dislike, Opinion.Unknown].count Opinion.Like : ℚ) /
              (([Opinion.Like, Opinion.Dislike, Opinion.Unknown].length -
                [Opinion.Like, Opinion.Dislike, Opinion.Unknown].count Opinion.Unknown :
                Nat) : ℚ) }) :=
  applyTally_spec
    { firstRoundLowerBoundThreshold := 1/2, firstRoundUpperBoundThreshold := 1/2,
      subsequentRoundsLowerBoundThreshold := 1/2,
      subsequentRoundsUpperBoundThreshold := 1/2, endingRoundsFixedThreshold := 1/2,
      totalRoundsCoolingOffPeriod := 0, totalRoundsFinalization := 3,
      totalRoundsFixedThreshold := 2, maxRoundsPerVoteContext := 10,
      minOpinionsReceived := 2, querySampleSize := 1, maxQuerySampleSize := 3 }
    5 7 [("b", [Opinion.Like, Opinion.Dislike, Opinion.Unknown])]
    [("b", newContext "b" ObjectType.Conflict Opinion.Like)] "b"
    [Opinion.Like, Opinion.Dislike, Opinion.Unknown]
    (newContext "b" ObjectType.Conflict Opinion.Like)
    (by decide) (by decide) (by decide)

/-- A small concrete parameter set used by the concrete round scenarios: no
cooldown, finalization 3, fixed tail 2, round cap 10, minimum 1 opinion,
sample size 1, at most 3 weighted attempts, all thresholds one half. -/
def pTest : Parameters :=
  { firstRoundLowerBoundThreshold := 1/2, firstRoundUpperBoundThreshold := 1/2,
    subsequentRoundsLowerBoundThreshold := 1/2,
    subsequentRoundsUpperBoundThreshold := 1/2, endingRoundsFixedThreshold := 1/2,
    totalRoundsCoolingOffPeriod := 0, totalRoundsFinalization := 3,
    totalRoundsFixedThreshold := 2, maxRoundsPerVoteContext := 10,
    minOpinionsReceived := 1, querySampleSize := 1, maxQuerySampleSize := 3 }

/-- A deterministic random source: every float draw is one half, every int
draw is zero. -/
def rngTest : Rng := ⟨fun _ => 1 / 2, fun _ => 0⟩

/-- A single opinion giver with unit mana. -/
def giverG : OpinionGiver := ⟨"g", 1⟩

/-- C1 (divergence of the source from the concatenated-order reading): run the
tally block of queryOpinions with conflict ids [c], timestamp ids [t] and the
giver's response [Like, Dislike], whose length meets the required
len(conflictIds) + len(timestampIds) = 2.  The tally and the recorded
QueriedOpinions give the timestamp id t the response element at index 0
(Like), while the response element at index len(conflictIds) + 0 is Dislike:
the source consumes the conflict-segment element again for the timestamps
instead of continuing in concatenated order. -/
theorem timestampTally_divergence :
    (tallyGiver ["c"] ["t"] [Opinion.Like, Opinion.Dislike] 1 "g"
        (createVoteMapForConflicts ["c"] ["t"])).2 =
      { opinionGiverID := "g",
        opinions := [("c", Opinion.Like), ("t", Opinion.Like)],
        timesCounted := 1 } ∧
    assocLookup (tallyGiver ["c"] ["t"] [Opinion.Like, Opinion.Dislike] 1 "g"
        (createVoteMapForConflicts ["c"] ["t"])).1 "t" = some [Opinion.Like] ∧
    [Opinion.Like, Opinion.Dislike].length = ["c"].length + ["t"].length ∧
    [Opinion.Like, Opinion.Dislike].getD (["c"].length + 0) Opinion.Unknown =
      Opinion.Dislike := by
  decide

/-- Round environment in which the single unit-mana giver answers every query
with all Like and the own weight is 1. -/
def envOKc2 : RoundEnv :=
  { opinionGivers := some [giverG], ownWeight := some 1,
    queryResp := fun _ cids tids =>
      some (List.replicate (cids.length + tids.length) Opinion.Like),
    rng := rngTest }

/-- Round environment whose opinion-giver supplier errors. -/
def envSupplierErr : RoundEnv :=
  { opinionGivers := none, ownWeight := some 1,
    queryResp := fun _ _ _ => none, rng := rngTest }

/-- The state after submitting item a. -/
def stC2a : FPCState := (Vote newFPC "a" ObjectType.Conflict Opinion.Like).1

/-- The state after one successful round on item a. -/
def stC2b : FPCState := (Round pTest stC2a envOKc2 (1/2)).1

/-- The full result of a round whose supplier errors, taken after the
successful round. -/
def resC2c : FPCState × List Event × Option RoundError :=
  Round pTest stC2b envSupplierErr (1/2)

/-- C2 (divergence of the source from the claim): after a successful round the
flag is up; a round whose query stage errors returns the supplier error but
leaves the flag up (the source only ever sets it to true and never resets it),
and the immediately following Round still performs opinion formation: item a's
opinion sequence grows from two entries to three. -/
theorem lastRoundFlag_divergence :
    stC2b.lastRoundCompletedSuccessfully = true ∧
    resC2c.2.2 = some RoundError.supplierError ∧
    resC2c.1.lastRoundCompletedSuccessfully = true ∧
    (assocLookup resC2c.1.ctxs "a").map (fun c => c.opinions.length) = some 2 ∧
    (assocLookup (Round pTest resC2c.1 envSupplierErr (1/2)).1.ctxs "a").map
      (fun c => c.opinions.length) = some 3 := by
  norm_num [stC2b, stC2a, Round, enqueue, Vote, newFPC, newContext, upsertAssoc, assocLookup,
    eraseFirst, formOpinions, formOne, isNew, setThreshold, hadFirstRound, hadFixedRound,
    randUniformThreshold, biasTowardsOwnOpinion, ConvertOpinionToFloat64, lastOpinion,
    addOpinion, finalizeOpinions, isFinalized, queryOpinions, voteContextIDs,
    createVoteMapForConflicts, queryAggregate, tallyGiver, tallyStep, appendVotes,
    updateAssoc, applyTally, votedCountLikedSum, ManaBasedSampling, totalsOf,
    UniformSampling, weightedLoop, scanSelect, bump, toleranceTotalMana, defaultGiver,
    envOKc2, envSupplierErr, pTest, rngTest, giverG, List.filterMap_cons, resC2c]

/-- C3 (counterexample to the claim as stated): with zero submissions Round
returns no error yet does emit a RoundExecuted event (with empty queried
opinions). -/
theorem emptyRound_counterexample :
    (Round pTest newFPC envOKc2 (1/2)).2.1 = [Event.roundExecuted []] ∧
    (Round pTest newFPC envOKc2 (1/2)).2.2 = none := by
  decide

/-- C3 (amended): with an empty queue and an empty registry, Round returns no
error, raises the success flag, and emits exactly one RoundExecuted event with
empty queried opinions — for every parameter set, environment and random
value. -/
theorem round_no_submissions (p : Parameters) (st : FPCState) (env : RoundEnv) (r : ℚ)
    (h1 : st.queue = []) (h2 : st.ctxs = []) :
    Round p st env r =
      ({ st with lastRoundCompletedSuccessfully := true },
       [Event.roundExecuted []], none) := by
  obtain ⟨queue, queueSet, ctxs, flag⟩ := st
  simp only at h1 h2
  subst h1
  subst h2
  cases flag <;> rfl

/-- Closed instantiation of the amended C3 theorem: even under a failing
supplier the empty engine emits RoundExecuted and reports success. -/
theorem round_no_submissions_witness :
    Round pTest newFPC envSupplierErr 0 =
      ({ newFPC with lastRoundCompletedSuccessfully := true },
       [Event.roundExecuted []], none) :=
  round_no_submissions pTest newFPC envSupplierErr 0 rfl rfl

/-- The pTest parameters with the round cap lowered to 3. -/
def pC4 : Parameters := { pTest with maxRoundsPerVoteContext := 3 }

/-- Round environment whose supplier always returns the empty giver list. -/
def envEmptyGivers : RoundEnv :=
  { opinionGivers := some [], ownWeight := some 0,
    queryResp := fun _ _ _ => none, rng := rngTest }

/-- The state after submitting item x. -/
def stC4 : FPCState := (Vote newFPC "x" ObjectType.Conflict Opinion.Like).1

/-- C4 (counterexample to the claim as stated): submitting x and running five
rounds against an always-empty supplier, with a round cap of 3, returns
NoOpinionGiversAvailable five times and ticks x's rounds to five — yet no
event at all (in particular no Failed event) is ever emitted, because the
finalize/fail pass only runs after a successful round. -/
theorem alwaysEmptySupplier_counterexample :
    (roundsTrace pC4 envEmptyGivers 0 5 stC4).2.1 = [] ∧
    (roundsTrace pC4 envEmptyGivers 0 5 stC4).2.2 =
      List.replicate 5 (some RoundError.noOpinionGiversAvailable) ∧
    (assocLookup (roundsTrace pC4 envEmptyGivers 0 5 stC4).1.ctxs "x").map
      (fun c => c.rounds) = some 5 ∧
    pC4.maxRoundsPerVoteContext = 3 := by
  decide

theorem enqueue_eq_self (st : FPCState) (h : st.queue = []) : enqueue st = st := by
  obtain ⟨queue, queueSet, ctxs, flag⟩ := st
  simp only at h
  subst h
  rfl

theorem voteContextIDs_nonempty (ctxs : List (String × VoteContext)) (h : ctxs ≠ []) :
    ((voteContextIDs ctxs).1.isEmpty && (voteContextIDs ctxs).2.isEmpty) = false := by
  obtain ⟨pc, rest, rfl⟩ := List.exists_cons_of_ne_nil h
  rcases hty : pc.2.objectType with _ | _ <;>
    simp [voteContextIDs, List.filterMap_cons, hty]

theorem queryOpinions_empty_givers (p : Parameters) (env : RoundEnv)
    (ctxs : List (String × VoteContext)) (hg : env.opinionGivers = some [])
    (hc : ctxs ≠ []) :
    queryOpinions p env ctxs = (ctxs, [], some RoundError.noOpinionGiversAvailable) := by
  have hids := voteContextIDs_nonempty ctxs hc
  rw [queryOpinions, if_neg (by simp [hids]), hg]
  rfl

theorem round_empty_supplier_step (p : Parameters) (st : FPCState) (env : RoundEnv)
    (r : ℚ) (hg : env.opinionGivers = some []) (hq : st.queue = [])
    (hf : st.lastRoundCompletedSuccessfully = false) (hc : st.ctxs ≠ []) :
    Round p st env r =
      ({ st with
           ctxs := st.ctxs.map
             (fun pc => (pc.1, { pc.2 with rounds := pc.2.rounds + 1 })) },
       [], some RoundError.noOpinionGiversAvailable) := by
  have h1 : enqueue st = st := enqueue_eq_self st hq
  have hticknil : st.ctxs.map
      (fun pc => (pc.1, { pc.2 with rounds := pc.2.rounds + 1 })) ≠ [] := by
    intro hnil
    exact hc (List.map_eq_nil_iff.mp hnil)
  have hQ := queryOpinions_empty_givers p env
      (st.ctxs.map (fun pc => (pc.1, { pc.2 with rounds := pc.2.rounds + 1 }))) hg hticknil
  simp only [Round, h1, hf, Bool.false_eq_true, if_false, hQ]

/-- C4 (amended): against a supplier that always returns the empty list,
starting from any drained state whose last round did not complete
successfully and whose registry is non-empty, every one of n Round calls
returns NoOpinionGiversAvailable and ticks every registry context by one
round per call — but no event (in particular no Failed event, however large n
grows relative to MaxRoundsPerVoteContext) is ever emitted, because the
finalize/fail pass is suppressed until some round succeeds. -/
theorem rounds_empty_supplier_trace (p : Parameters) (env : RoundEnv) (r : ℚ)
    (hg : env.opinionGivers = some []) :
    ∀ (n : Nat) (st : FPCState), st.queue = [] →
      st.lastRoundCompletedSuccessfully = false → st.ctxs ≠ [] →
      roundsTrace p env r n st =
        ({ st with
             ctxs := st.ctxs.map
               (fun pc => (pc.1, { pc.2 with rounds := pc.2.rounds + n })) },
         [], List.replicate n (some RoundError.noOpinionGiversAvailable)) := by
  intro n
  induction n with
  | zero =>
    intro st hq hf hc
    have hfun : (fun pc : String × VoteContext =>
        (pc.1, { pc.2 with rounds := pc.2.rounds + 0 })) = id := rfl
    rw [roundsTrace, hfun, List.map_id]
    rfl
  | succ n ih =>
    intro st hq hf hc
    rw [roundsTrace, round_empty_supplier_step p st env r hg hq hf hc]
    rw [ih ({ st with
        ctxs := st.ctxs.map
          (fun pc => (pc.1, { pc.2 with rounds := pc.2.rounds + 1 })) }) hq hf
      (by
        intro hnil
        exact hc (List.map_eq_nil_iff.mp hnil))]
    rw [List.map_map]
    have hcomp : ((fun pc : String × VoteContext =>
          (pc.1, { pc.2 with rounds := pc.2.rounds + n })) ∘
        fun pc : String × VoteContext =>
          (pc.1, { pc.2 with rounds := pc.2.rounds + 1 })) =
        fun pc : String × VoteContext =>
          (pc.1, { pc.2 with rounds := pc.2.rounds + (n + 1) }) := by
      funext pc
      show (pc.1, { pc.2 with rounds := pc.2.rounds + 1 + n }) =
        (pc.1, { pc.2 with rounds := pc.2.rounds + (n + 1) })
      rw [Nat.add_assoc, Nat.add_comm 1 n]
    rw [hcomp, List.replicate_succ]
    rfl

/-- Closed instantiation of the amended C4 theorem: four further rounds from
the drained state reached after the first empty-supplier round on item x. -/
theorem rounds_empty_supplier_trace_witness :
    roundsTrace pC4 envEmptyGivers 0 4 (Round pC4 stC4 envEmptyGivers 0).1 =
      ({ (Round pC4 stC4 envEmptyGivers 0).1 with
           ctxs := (Round pC4 stC4 envEmptyGivers 0).1.ctxs.map
             (fun pc => (pc.1, { pc.2 with rounds := pc.2.rounds + 4 })) },
       [], List.replicate 4 (some RoundError.noOpinionGiversAvailable)) :=
  rounds_empty_supplier_trace pC4 envEmptyGivers 0 rfl 4
    (Round pC4 stC4 envEmptyGivers 0).1 (by decide) (by decide) (by decide)

end FPCModel
